import Mathlib

/-!
Verification development for the pyjoulescope_ui pub/sub architecture.

The repository sources under study are `joulescope_ui/view.py`,
`joulescope_ui/main.py` and
`joulescope_ui/widgets/accumulator/accumulator_widget.py`.  These are
clients of a central PubSub bus (topic tree, registry, dispatch queue,
subscription manager).  The bus implementation itself is not part of the
provided sources, so its primitives (`register`, `unregister`, `publish`,
`process`, `query`, `subscribe`) are modelled from the specification,
while every handler and control flow from the three source files is
translated directly from the source.

Topics are modelled as lists of path segments (`registry/<id>/settings/x`
becomes `["registry", id, "settings", "x"]`); values by the inductive
type `V` covering the value shapes the claims exercise.
-/

/-- A topic path, one list element per `/`-separated segment. -/
abbrev Topic := List String

/-- Values stored in the topic tree: Python `None`, strings, lists of
strings (children lists and capability lists), and booleans. -/
inductive V where
  | none
  | str (s : String)
  | list (l : List String)
  | bool (b : Bool)
  deriving DecidableEq

/-- System state: the topic tree (association list, most recent binding
first), the pending dispatch queue, the `View._active_instance` class
variable, and abstract stand-ins for the Qt dock-manager state and the
main-window geometry used by the view teardown path. -/
structure PS where
  values : List (Topic × V)
  queue : List (Topic × V)
  activeView : Option String
  dockState : String
  uiGeometry : String
  deriving DecidableEq

/-- Look up the stored value bound to a topic, if any. -/
def lookupTopic (st : PS) (t : Topic) : Option V :=
  (st.values.find? (fun p => p.1 = t)).map Prod.snd

/-- Whether a topic currently has a stored value. -/
def hasTopic (st : PS) (t : Topic) : Bool :=
  (lookupTopic st t).isSome

/-- Modelled from the spec: `query(topic, default)` returns the stored
value or `default` if the topic does not exist; it is total and never
fails for missing topics (spec section 4.1, `get`). -/
def query (st : PS) (t : Topic) (d : V) : V :=
  (lookupTopic st t).getD d

/-- Store a value at a topic, replacing any previous binding. -/
def setValue (st : PS) (t : Topic) (v : V) : PS :=
  { st with values := (t, v) :: st.values.filter (fun p => p.1 ≠ t) }

/-- Modelled from the spec: `publish(topic, value)` appends the message
to the pending queue (deferred dispatch; spec section 4.3). -/
def publish (st : PS) (t : Topic) (v : V) : PS :=
  { st with queue := st.queue ++ [(t, v)] }

/-- The topic of a registered object's subtree root. -/
def regTopic (uid : String) : Topic := ["registry", uid]

/-- The topic holding a registered object's children list. -/
def childrenTopic (uid : String) : Topic := ["registry", uid, "children"]

/-- The topic holding a registered object's live-instance binding. -/
def instanceTopic (uid : String) : Topic := ["registry", uid, "instance"]

/-- The read-only capability-index topic for one capability tag
(`registry_manager/capabilities/<tag>/list`). -/
def capTopic (tag : String) : Topic :=
  ["registry_manager", "capabilities", tag, "list"]

/-- The ordered id list currently recorded for a capability tag. -/
def capList (st : PS) (tag : String) : List String :=
  match lookupTopic st (capTopic tag) with
  | some (V.list l) => l
  | _ => []

/-- Append an id to a capability list (created when absent, duplicates
forbidden), as the spec requires of `register`. -/
def addCap (st : PS) (tag : String) (uid : String) : PS :=
  let l := capList st tag
  setValue st (capTopic tag) (V.list (if uid ∈ l then l else l ++ [uid]))

/-- Append an id to a parent's ordered children list (duplicates
forbidden), as the spec requires of `register(parent=...)`. -/
def addChild (st : PS) (parent : String) (uid : String) : PS :=
  match lookupTopic st (childrenTopic parent) with
  | some (V.list l) =>
      setValue st (childrenTopic parent) (V.list (if uid ∈ l then l else l ++ [uid]))
  | _ => setValue st (childrenTopic parent) (V.list [uid])

/-- Modelled from the spec: `register(target, unique_id, parent)` binds
the instance, creates the (empty) children list when absent, merges the
class settings defaults into the topic tree without overwriting values
that survived an earlier suspend, records the capabilities in the
capability index, and appends the id to the parent's children list
(spec section 4.2). -/
def register (st : PS) (uid : String) (caps : List String)
    (settings : List (String × V)) (parent : Option String) : PS :=
  let st := setValue st (instanceTopic uid) (V.str uid)
  let st := if hasTopic st (childrenTopic uid) then st
            else setValue st (childrenTopic uid) (V.list [])
  let st := settings.foldl (fun s nv =>
      if hasTopic s ["registry", uid, "settings", nv.1] then s
      else setValue s ["registry", uid, "settings", nv.1] nv.2) st
  let st := caps.foldl (fun s c => addCap s c uid) st
  match parent with
  | some p => addChild st p uid
  | Option.none => st

/-- One topic-tree entry, with an id filtered out when the entry is a
capability list. -/
def capEntryRemove (uid : String) (p : Topic × V) : Topic × V :=
  match p with
  | (["registry_manager", "capabilities", tag, "list"], V.list l) =>
      (capTopic tag, V.list (l.filter (fun x => x ≠ uid)))
  | other => other

/-- Remove an id from every capability list, as unregister does for both
the suspend and the delete flavors. -/
def removeFromCaps (st : PS) (uid : String) : PS :=
  { st with values := st.values.map (capEntryRemove uid) }

/-- One topic-tree entry, with an id filtered out when the entry is a
children list. -/
def childEntryRemove (uid : String) (p : Topic × V) : Topic × V :=
  match p with
  | (["registry", pid, "children"], V.list l) =>
      (childrenTopic pid, V.list (l.filter (fun x => x ≠ uid)))
  | other => other

/-- Remove an id from every children list; `unregister(delete=True)`
removes the destroyed widget from its view ("Removes the widget from its
view", `View.on_action_widget_close` docstring). -/
def removeFromChildren (st : PS) (uid : String) : PS :=
  { st with values := st.values.map (childEntryRemove uid) }

/-- Modelled from the spec: `unregister(id, delete)` removes the id from
every capability list; with `delete` it purges the whole
`registry/<id>/*` subtree and removes the id from its parent's children
list, while a mere suspend (`delete=False`) keeps the settings subtree
for later restore and drops only the live-instance binding
(spec section 4.2). -/
def unregister (st : PS) (uid : String) (delete : Bool) : PS :=
  let st := removeFromCaps st uid
  if delete then
    let st := removeFromChildren st uid
    { st with values := st.values.filter (fun p => ¬ (regTopic uid <+: p.1)) }
  else
    { st with values := st.values.filter (fun p => p.1 ≠ instanceTopic uid) }

/-! ## View handlers, translated from `joulescope_ui/view.py` -/

/-- The children list read with `default=[]`, as `View._widget_suspend`
does at line 278 (`query(f'{topic}/children', default=[])`). -/
def getChildrenD (st : PS) (uid : String) : List String :=
  match query st (childrenTopic uid) (V.list []) with
  | V.list l => l
  | _ => []

/-- `View._widget_suspend` (view.py lines 247-281): closes the Qt widget
(a Qt-side effect outside the topic tree), recurses into the children
read from `registry/<id>/children` — passing no `delete` flag, so the
children are merely suspended — and finally unregisters the widget
itself with the caller's `delete` flag.  The extra fuel argument bounds
the recursion depth (the source recursion terminates because the
parent/child relation is acyclic); theorems supply sufficient fuel.  The
second component is the trace of `unregister` calls in order, each with
its `delete` flag. -/
def widgetSuspendF : Nat → PS → String → Bool → PS × List (String × Bool)
  | 0, st, _, _ => (st, [])
  | fuel + 1, st, uid, del =>
    let step := (getChildrenD st uid).foldl (fun acc c =>
        let r := widgetSuspendF fuel acc.1 c false
        (r.1, acc.2 ++ r.2)) (st, [])
    (unregister step.1 uid del, step.2 ++ [(uid, del)])

/-- `View.on_action_widget_close` (view.py lines 283-297): suspend with
`delete=True`, then return the inverse `!widget_open` descriptor for the
same unique id. -/
def onActionWidgetClose (st : PS) (value : String) : PS × Option (Topic × V) :=
  let r := widgetSuspendF (st.values.length + 1) st value true
  (r.1, some (["registry", "view", "actions", "!widget_open"], V.str value))

/-- Capability recorded for widget instances (`widget@` in the class
declarations; the trailing `@` marks a per-instance object capability,
indexed as `widget.object`). -/
def widgetCaps : List String := ["widget.object"]

/-- `View.on_action_widget_open` (view.py lines 187-245), for the string
spec naming an existing instance or a suspended widget (live instance
present, or `instance_of` left behind by a suspend): registers the
widget under the view, enqueues a style render action, and returns the
inverse `!widget_close` descriptor.  When neither lookup succeeds the
source logs a warning and returns `None` (lines 219-221).  The Qt dock
plumbing and the factory path that instantiates a fresh class with a
newly allocated id are outside the topic tree (allocation is modelled in
the allocation section). -/
def onActionWidgetOpen (st : PS) (viewId : String) (spec : String) :
    PS × Option (Topic × V) :=
  if hasTopic st (instanceTopic spec) ∨ hasTopic st ["registry", spec, "instance_of"] then
    let st := register st spec widgetCaps [] (some viewId)
    let st := publish st ["registry", "StyleManager:0", "actions", "!render"] (V.str spec)
    (st, some (["registry", "view", "actions", "!widget_close"], V.str spec))
  else (st, Option.none)

/-- The settings declared by `VIEW_SETTINGS` (view.py lines 56-90), with
their defaults.  The style settings merged in from the styles module are
not part of the provided sources. -/
def viewSettings : List (String × V) :=
  [("active", V.str ""), ("theme", V.str "js1"), ("color_scheme", V.str "dark"),
   ("font_scheme", V.str "js1"), ("ads_state", V.str ""), ("geometry", V.none)]

/-- Capability recorded for view instances (`view@` in
`View.CAPABILITIES`, indexed as `view.object`). -/
def viewCap : String := "view.object"

/-- `View.on_cls_action_add` (view.py lines 307-315): register a new
view under the requested unique id; when no view is active, publish the
new id to `registry/view/settings/active`; return the inverse `!remove`
descriptor. -/
def onClsActionAdd (st : PS) (value : String) : PS × Option (Topic × V) :=
  let st := register st value [viewCap] viewSettings Option.none
  let st := if st.activeView = Option.none
            then publish st ["registry", "view", "settings", "active"] (V.str value)
            else st
  (st, some (["registry", "view", "actions", "!remove"], V.str value))

/-- `View.on_cls_action_remove` (view.py lines 317-321): unregister the
view — with the bus default `delete=False`, so its settings subtree is
kept — and return the inverse `!add` descriptor. -/
def onClsActionRemove (st : PS) (value : String) : PS × Option (Topic × V) :=
  (unregister st value false, some (["registry", "view", "actions", "!add"], V.str value))

/-- The teardown block of `View.on_cls_setting_active` (view.py lines
113-127): when a view is active, publish its geometry (only when the
`ui` instance exists) and dock state, then iterate the children read
with `default=None` (line 123) — when that topic is missing the source
iterates `None` and raises `TypeError`, modelled as `Option.none` — and
suspend each child without `delete`. -/
def viewTeardown (st : PS) : Option PS :=
  match st.activeView with
  | some vid =>
      let st1 := if hasTopic st (instanceTopic "ui")
                 then publish st ["registry", vid, "settings", "geometry"] (V.str st.uiGeometry)
                 else st
      let st2 := publish st1 ["registry", vid, "settings", "ads_state"] (V.str st.dockState)
      match lookupTopic st2 (childrenTopic vid) with
      | some (V.list l) =>
          some (l.foldl (fun s c => (widgetSuspendF (s.values.length + 1) s c false).1) st2)
      | _ => Option.none
  | Option.none => some st

/-- `View.on_cls_setting_active` (view.py lines 110-150): run the
teardown block, clear `View._active_instance`; for `''` or `None` the
handler returns; for an id with no live instance it logs a warning and
returns; otherwise it reopens the new view's children (this read is
guarded by `is not None`, line 140), marks the view active, and restores
dock state and geometry (Qt-side effects outside the topic tree). -/
def onClsSettingActive (st : PS) (value : V) : Option PS :=
  match viewTeardown st with
  | Option.none => Option.none
  | some st =>
    let st := { st with activeView := Option.none }
    match value with
    | V.none => some st
    | V.str s =>
      if s = "" then some st
      else if hasTopic st (instanceTopic s) then
        let st := match lookupTopic st (childrenTopic s) with
          | some (V.list l) => l.foldl (fun a c => (onActionWidgetOpen a s c).1) st
          | _ => st
        some { st with activeView := some s }
      else some st
    | _ => some st

/-- Whether a topic is an action topic (trailing segment starts with the
`!` action marker). -/
def isActionTopic (t : Topic) : Bool :=
  match t.getLast? with
  | some s => s.startsWith "!"
  | Option.none => false

/-- Modelled from the spec: one dispatch step of `process()` (spec
section 4.3).  Action topics invoke the bound handler (the handlers
registered by the sources are the `View` class handlers; an action with
no live handler — including the class delegations when
`View._active_instance` is `None`, which raise and are caught per-handler
— is logged and dropped); any other topic is a settings write.  A write
to the class-level `registry/view/settings/active` topic is stored,
propagated to the registered view instances, and then runs the
`on_cls_setting_active` class handler. -/
def dispatch (st : PS) (t : Topic) (v : V) : Option PS :=
  match t, v with
  | ["registry", "view", "actions", "!add"], V.str uid =>
      some (onClsActionAdd st uid).1
  | ["registry", "view", "actions", "!remove"], V.str uid =>
      some (onClsActionRemove st uid).1
  | ["registry", "view", "actions", "!widget_open"], V.str uid =>
      match st.activeView with
      | some vid => some (onActionWidgetOpen st vid uid).1
      | Option.none => some st
  | ["registry", "view", "actions", "!widget_close"], V.str uid =>
      match st.activeView with
      | some _ => some (onActionWidgetClose st uid).1
      | Option.none => some st
  | ["registry", "view", "settings", "active"], v =>
      let st := setValue st ["registry", "view", "settings", "active"] v
      let st := (capList st viewCap).foldl
          (fun a i => setValue a ["registry", i, "settings", "active"] v) st
      onClsSettingActive st v
  | t, v => if isActionTopic t then some st else some (setValue st t v)

/-- Modelled from the spec: `process()` pops pending messages in FIFO
order and dispatches each, continuing until the queue is empty (fuel
bounds the number of steps; theorems supply sufficient fuel). -/
def processFuel : Nat → PS → Option PS
  | 0, st => some st
  | n + 1, st =>
    match st.queue with
    | [] => some st
    | m :: rest =>
      match dispatch { st with queue := rest } m.1 m.2 with
      | some st' => processFuel n st'
      | Option.none => Option.none

/-! ## Application shutdown, translated from `joulescope_ui/main.py` -/

/-- The device-factory capability tag (`CAPABILITIES.DEVICE_FACTORY`). -/
def deviceFactoryCap : String := "device.factory"

/-- `_device_factory_finalize` (main.py lines 104-108): publish a
`!finalize` action to every registered device factory. -/
def deviceFactoryFinalize (st : PS) : PS :=
  (capList st deviceFactoryCap).foldl
    (fun a f => publish a ["registry", f, "actions", "!finalize"] V.none) st

/-- `MainWindow.closeEvent` (main.py lines 332-337): publish the
device-factory finalize actions, then the JlsSource finalize action, and
return to the Qt base class.  No `process()` call appears in this
method. -/
def closeEvent (st : PS) : PS :=
  publish (deviceFactoryFinalize st) ["registry", "JlsSource", "actions", "!finalize"] V.none

/-! ## Subscription manager, modelled from the spec (section 4.4) -/

/-- Subscription flags: `pub` delivers on every publish; `retain`
additionally delivers once immediately with the last published value if
one exists. -/
inductive SubFlag where
  | pub
  | retain
  deriving DecidableEq

/-- Modelled from the spec: subscription-manager state — the last
processed value per topic (plain topic strings suffice here) and the
subscriber list per topic in registration order (handlers named by
number). -/
structure SubState where
  lastValue : List (String × V)
  subs : List (String × Nat)
  deriving DecidableEq

/-- The last published-and-processed value of a topic, if any. -/
def lastOf (st : SubState) (topic : String) : Option V :=
  (st.lastValue.find? (fun p => p.1 = topic)).map Prod.snd

/-- Modelled from the spec: `subscribe(topic, handler, flags)` appends
the handler to the topic's subscriber list; with `retain`, it delivers
the last published value to the handler once, synchronously, during the
call itself — the second component is the list of deliveries performed
inside `subscribe` (spec section 4.4). -/
def subscribe (st : SubState) (topic : String) (h : Nat) (flags : List SubFlag) :
    SubState × List (Nat × V) :=
  let st' := { st with subs := st.subs ++ [(topic, h)] }
  if SubFlag.retain ∈ flags then
    match lastOf st topic with
    | some v => (st', [(h, v)])
    | Option.none => (st', [])
  else (st', [])

/-- Modelled from the spec: processing a publish of `(topic, v)` stores
the value and delivers it to the topic's subscribers in registration
order; the second component is the list of deliveries. -/
def publishDeliver (st : SubState) (topic : String) (v : V) :
    SubState × List (Nat × V) :=
  let st' := { st with
    lastValue := (topic, v) :: st.lastValue.filter (fun p => p.1 ≠ topic) }
  (st', (st.subs.filter (fun p => p.1 = topic)).map (fun p => (p.2, v)))

/-! ## Unique-id allocation, modelled from the spec (section 4.2) -/

/-- In-use factory ids, as (class name, number) pairs; the printable
form of a pair is `<ClassName>:<N>`. -/
structure AllocState where
  inUse : List (String × Nat)
  deriving DecidableEq

/-- The printable unique id `<ClassName>:<N>`. -/
def uidStr (cls : String) (n : Nat) : String := cls ++ ":" ++ toString n

/-- Whether number `n` is currently in use for class `cls`. -/
def usedNum (st : AllocState) (cls : String) (n : Nat) : Bool :=
  (cls, n) ∈ st.inUse

/-- Some number is always free for a class: one past the largest number
in use. -/
theorem exists_unused (st : AllocState) (cls : String) :
    ∃ n, usedNum st cls n = false := by
  refine ⟨(st.inUse.map Prod.snd).foldr max 0 + 1, ?_⟩
  unfold usedNum
  simp only [decide_eq_false_iff_not]
  intro hmem
  have hle : (st.inUse.map Prod.snd).foldr max 0 + 1 ≤ (st.inUse.map Prod.snd).foldr max 0 := by
    have : (st.inUse.map Prod.snd).foldr max 0 + 1 ∈ st.inUse.map Prod.snd :=
      List.mem_map_of_mem Prod.snd hmem
    exact List.le_max_of_le (l := st.inUse.map Prod.snd) this le_rfl
  omega

/-- Modelled from the spec: the number allocated for a factory
registration is the smallest non-negative integer not currently in use
for that class (spec section 4.2). -/
def allocNum (st : AllocState) (cls : String) : Nat :=
  Nat.find (p := fun n => usedNum st cls n = false) (exists_unused st cls)

/-- Modelled from the spec: `register` of a factory records the
allocated number as in use and returns the unique id
`<ClassName>:<N>`. -/
def registerFactory (st : AllocState) (cls : String) : AllocState × String :=
  ({ inUse := (cls, allocNum st cls) :: st.inUse }, uidStr cls (allocNum st cls))

/-- Modelled from the spec: unregistering `<cls>:<n>` frees the number
for reuse. -/
def unregisterNum (st : AllocState) (cls : String) (n : Nat) : AllocState :=
  { inUse := st.inUse.filter (fun p => p ≠ (cls, n)) }

/-! ## Accumulator widget, translated from
`joulescope_ui/widgets/accumulator/accumulator_widget.py` -/

/-- Python truthiness of the modelled values (`bool(value)`). -/
def truthy : V → Bool
  | V.none => false
  | V.str s => s ≠ ""
  | V.list l => l ≠ []
  | V.bool b => b

/-- The `AccumulatorWidget` state the statistics path touches: the
global-hold flag `_hold_global`, the stored statistics `_statistics`,
and the accumulator label text.  The statistics payload type and the
numeric formatting (floating-point unit conversion) are abstracted as a
type parameter and a formatting function: the statistics handler's
guard returns before any of that runs when the hold flag is set. -/
structure AccumWidget (α : Type) where
  holdGlobal : Bool
  statistics : Option α
  labelText : String
  deriving DecidableEq

/-- `AccumulatorWidget._on_global_statistics_stream_enable`
(accumulator_widget.py lines 115-116): `_hold_global = not bool(value)`. -/
def onGlobalStatisticsStreamEnable {α : Type} (w : AccumWidget α) (value : V) :
    AccumWidget α :=
  { w with holdGlobal := ! truthy value }

/-- `AccumulatorWidget._on_statistics` (accumulator_widget.py lines
118-136): return immediately when `_hold_global` is set; otherwise store
the statistics and set the label text computed from them (`fmt` stands
for the unit-conversion and formatting pipeline of lines 122-135). -/
def onStatistics {α : Type} (fmt : α → String) (w : AccumWidget α) (value : α) :
    AccumWidget α :=
  if w.holdGlobal then w
  else { w with statistics := some value, labelText := fmt value }

/-! ## Widget trees

The widget parent/child hierarchy recorded in the `registry/<id>/children`
topics, reified as finite rose trees so that the state-driven recursion
of `View._widget_suspend` can be reasoned about by structural induction.
A tree argument is tied to the state by `matchesT`: the children topic of
every node holds exactly the root ids of its child subtrees. -/

mutual
inductive WTree where
  | node (id : String) (children : WForest)
inductive WForest where
  | nil
  | cons (t : WTree) (f : WForest)
end

/-- The id at the root of a widget tree. -/
def rootId : WTree → String
  | .node i _ => i

/-- The forest of child subtrees of a widget tree. -/
def childrenOf : WTree → WForest
  | .node _ f => f

mutual
/-- All ids in a widget tree, root first. -/
def idsT : WTree → List String
  | .node i f => i :: idsF f
/-- All ids in a widget forest. -/
def idsF : WForest → List String
  | .nil => []
  | .cons t f => idsT t ++ idsF f
end

/-- The root ids of the trees of a forest. -/
def rootsF : WForest → List String
  | .nil => []
  | .cons t f => rootId t :: rootsF f

mutual
/-- Depth of a widget tree (a leaf has depth 1). -/
def depthT : WTree → Nat
  | .node _ f => depthF f + 1
/-- Maximum depth over a forest. -/
def depthF : WForest → Nat
  | .nil => 0
  | .cons t f => max (depthT t) (depthF f)
end

mutual
/-- Ids of a tree in the post-order produced by widget teardown:
descendants first, root last. -/
def flatT : WTree → List String
  | .node i f => flatF f ++ [i]
/-- Post-order ids of a forest. -/
def flatF : WForest → List String
  | .nil => []
  | .cons t f => flatT t ++ flatF f
end

mutual
/-- All subtrees of a tree, the tree itself included. -/
def subtreesT : WTree → List WTree
  | .node i f => .node i f :: subtreesF f
/-- All subtrees of the trees of a forest. -/
def subtreesF : WForest → List WTree
  | .nil => []
  | .cons t f => subtreesT t ++ subtreesF f
end

mutual
/-- The tree mirrors the state: each node's `registry/<id>/children`
topic (as read by the teardown path) lists exactly the root ids of its
child subtrees. -/
def matchesT (st : PS) : WTree → Bool
  | .node i f => (getChildrenD st i = rootsF f) && matchesF st f
/-- Forest version of `matchesT`. -/
def matchesF (st : PS) : WForest → Bool
  | .nil => true
  | .cons t f => matchesT st t && matchesF st f
end

mutual
/-- The trace of `unregister` calls that `View._widget_suspend` performs
on a tree matching the state: child subtrees in order (each suspended
without `delete`), then the root with the caller's flag. -/
def traceT : WTree → Bool → List (String × Bool)
  | .node i f, del => traceF f ++ [(i, del)]
/-- Forest version of `traceT`. -/
def traceF : WForest → List (String × Bool)
  | .nil => []
  | .cons t f => traceT t false ++ traceF f
end

/-- The fold over a children list inside `View._widget_suspend`,
accumulating the suspended state and the unregister trace. -/
def suspendList (fuel : Nat) (st : PS) (cs : List String) : PS × List (String × Bool) :=
  cs.foldl (fun acc c =>
    let r := widgetSuspendF fuel acc.1 c false
    (r.1, acc.2 ++ r.2)) (st, [])

/-! ## Basic lemmas about the topic tree operations -/

/-- Unfolding of one suspension level. -/
theorem widgetSuspendF_succ (fuel : Nat) (st : PS) (uid : String) (del : Bool) :
    widgetSuspendF (fuel + 1) st uid del =
      (unregister (suspendList fuel st (getChildrenD st uid)).1 uid del,
       (suspendList fuel st (getChildrenD st uid)).2 ++ [(uid, del)]) := rfl

/-- The suspension fold with a non-empty initial trace accumulator. -/
theorem suspendList_go (fuel : Nat) (cs : List String) :
    ∀ (st : PS) (acc : List (String × Bool)),
      cs.foldl (fun a c =>
        let r := widgetSuspendF fuel a.1 c false
        (r.1, a.2 ++ r.2)) (st, acc) =
      ((suspendList fuel st cs).1, acc ++ (suspendList fuel st cs).2) := by
  induction cs with
  | nil => intro st acc; simp [suspendList]
  | cons c cs ih =>
    intro st acc
    simp only [suspendList, List.foldl] at ih ⊢
    rw [ih, List.nil_append,
        ih (widgetSuspendF fuel st c false).1 (widgetSuspendF fuel st c false).2]
    simp

/-- Cons-unfolding of the suspension fold. -/
theorem suspendList_cons (fuel : Nat) (st : PS) (c : String) (cs : List String) :
    suspendList fuel st (c :: cs) =
      ((suspendList fuel (widgetSuspendF fuel st c false).1 cs).1,
       (widgetSuspendF fuel st c false).2 ++
         (suspendList fuel (widgetSuspendF fuel st c false).1 cs).2) := by
  simp only [suspendList, List.foldl]
  rw [suspendList_go]
  simp [suspendList]

/-- `find?` by topic ignores a filter that keeps every entry of that
topic. -/
theorem find?_filter_eq (l : List (Topic × V)) (q : Topic × V → Bool) (T : Topic)
    (h : ∀ p : Topic × V, p.1 = T → q p = true) :
    (l.filter q).find? (fun p => p.1 = T) = l.find? (fun p => p.1 = T) := by
  induction l with
  | nil => rfl
  | cons a l ih =>
    by_cases ha : a.1 = T
    · rw [List.filter_cons, h a ha]
      simp [List.find?, ha]
    · by_cases hq : q a = true <;>
        simp [List.filter_cons, hq, List.find?, ha, ih]

/-- `find?` by topic commutes with a map that preserves topics. -/
theorem find?_map_eq (l : List (Topic × V)) (g : Topic × V → Topic × V) (T : Topic)
    (hg : ∀ p, (g p).1 = p.1) :
    (l.map g).find? (fun p => p.1 = T) = (l.find? (fun p => p.1 = T)).map g := by
  induction l with
  | nil => rfl
  | cons a l ih =>
    by_cases ha : a.1 = T <;> simp [List.find?, hg, ha, ih]

/-- `capEntryRemove` preserves topics. -/
theorem fst_capEntryRemove (u : String) (p : Topic × V) :
    (capEntryRemove u p).1 = p.1 := by
  unfold capEntryRemove
  split <;> simp [capTopic]

/-- `childEntryRemove` preserves topics. -/
theorem fst_childEntryRemove (u : String) (p : Topic × V) :
    (childEntryRemove u p).1 = p.1 := by
  unfold childEntryRemove
  split <;> simp [childrenTopic]

/-- Lookup through a topic-preserving map that fixes the entries of one
topic. -/
theorem lookup_map_invariant (st : PS) (g : Topic × V → Topic × V) (T : Topic)
    (hg : ∀ p, (g p).1 = p.1) (hid : ∀ p : Topic × V, p.1 = T → g p = p) :
    lookupTopic { st with values := st.values.map g } T = lookupTopic st T := by
  unfold lookupTopic
  simp only
  rw [find?_map_eq st.values g T hg]
  cases hf : st.values.find? (fun p => p.1 = T) with
  | none => rfl
  | some p =>
    have hp : p.1 = T := by
      have := List.find?_some hf
      simpa using this
    simp [hid p hp]

/-- Lookup through a filter that keeps every entry of the topic. -/
theorem lookup_filter_invariant (st : PS) (q : Topic × V → Bool) (T : Topic)
    (h : ∀ p : Topic × V, p.1 = T → q p = true) :
    lookupTopic { st with values := st.values.filter q } T = lookupTopic st T := by
  unfold lookupTopic
  simp only
  rw [find?_filter_eq st.values q T h]

/-- Removing a capability entry leaves children-list entries alone. -/
theorem capEntryRemove_children (u x : String) (p : Topic × V)
    (hp : p.1 = childrenTopic x) : capEntryRemove u p = p := by
  rcases p with ⟨t, v⟩
  simp only at hp
  subst hp
  unfold capEntryRemove
  split
  · next tag l heq => simp [childrenTopic] at heq
  · rfl

/-- Removing a children entry leaves capability-list entries alone. -/
theorem childEntryRemove_cap (u tag : String) (p : Topic × V)
    (hp : p.1 = capTopic tag) : childEntryRemove u p = p := by
  rcases p with ⟨t, v⟩
  simp only at hp
  subst hp
  unfold childEntryRemove
  split
  · next pid l heq => simp [capTopic] at heq
  · rfl

/-- A suspend-flavored unregister does not change any children list. -/
theorem lookup_children_unregister (st : PS) (u x : String) :
    lookupTopic (unregister st u false) (childrenTopic x) =
      lookupTopic st (childrenTopic x) := by
  unfold unregister
  simp only [Bool.false_eq_true, if_false]
  rw [lookup_filter_invariant _ _ _
        (fun p hp => by simp [hp, childrenTopic, instanceTopic])]
  unfold removeFromCaps
  rw [lookup_map_invariant st _ _ (fst_capEntryRemove u) (capEntryRemove_children u x)]

/-- The capability lists after an unregister: the unregistered id is
filtered out of every list. -/
theorem capList_unregister (st : PS) (u : String) (del : Bool) (tag : String) :
    capList (unregister st u del) tag = (capList st tag).filter (fun x => x ≠ u) := by
  have hcaps : capList (removeFromCaps st u) tag = (capList st tag).filter (fun x => x ≠ u) := by
    unfold capList removeFromCaps lookupTopic
    simp only
    rw [find?_map_eq st.values (capEntryRemove u) (capTopic tag) (fst_capEntryRemove u)]
    cases hf : st.values.find? (fun p => p.1 = capTopic tag) with
    | none => rfl
    | some p =>
      have hp : p.1 = capTopic tag := by
        have := List.find?_some hf
        simpa using this
      rcases p with ⟨t, v⟩
      simp only at hp
      subst hp
      cases v <;> simp [capEntryRemove, capTopic]
  unfold unregister
  cases del with
  | false =>
    simp only [Bool.false_eq_true, if_false]
    have h1 : lookupTopic
        { removeFromCaps st u with
          values := (removeFromCaps st u).values.filter (fun p => p.1 ≠ instanceTopic u) }
        (capTopic tag) = lookupTopic (removeFromCaps st u) (capTopic tag) := by
      apply lookup_filter_invariant
      intro p hp
      simp [hp, capTopic, instanceTopic]
    unfold capList at hcaps ⊢
    rw [h1]
    exact hcaps
  | true =>
    simp only [if_true]
    have h2 : lookupTopic (removeFromChildren (removeFromCaps st u) u) (capTopic tag) =
        lookupTopic (removeFromCaps st u) (capTopic tag) := by
      apply lookup_map_invariant
      · exact fst_childEntryRemove u
      · exact childEntryRemove_cap u tag
    have h1 : lookupTopic
        { removeFromChildren (removeFromCaps st u) u with
          values := (removeFromChildren (removeFromCaps st u) u).values.filter
            (fun p => ¬ (regTopic u <+: p.1)) }
        (capTopic tag) = lookupTopic (removeFromChildren (removeFromCaps st u) u) (capTopic tag) := by
      apply lookup_filter_invariant
      intro p hp
      simp [hp, capTopic, regTopic, List.IsPrefix]
    unfold capList at hcaps ⊢
    rw [h1, h2]
    exact hcaps

/-- An id absent from a capability list stays absent across any
unregister. -/
theorem capList_unregister_mono (st : PS) (u : String) (del : Bool) (i tag : String)
    (h : i ∉ capList st tag) : i ∉ capList (unregister st u del) tag := by
  rw [capList_unregister]
  intro hmem
  exact h (List.mem_of_mem_filter hmem)

/-- Suspending a subtree (the `delete=False` recursion of
`View._widget_suspend`) changes no children list. -/
theorem suspendF_false_children (fuel : Nat) :
    ∀ (st : PS) (c x : String),
      lookupTopic ((widgetSuspendF fuel st c false).1) (childrenTopic x) =
        lookupTopic st (childrenTopic x) := by
  induction fuel with
  | zero => intro st c x; rfl
  | succ n ih =>
    intro st c x
    rw [widgetSuspendF_succ, lookup_children_unregister]
    generalize getChildrenD st c = cs
    induction cs generalizing st with
    | nil => rfl
    | cons d ds ihl =>
      rw [suspendList_cons]
      simp only
      rw [ihl (widgetSuspendF n st d false).1, ih st d x]

/-- A capability-list absence is preserved by any widget suspension. -/
theorem suspendF_caps_mono (fuel : Nat) :
    ∀ (st : PS) (c : String) (del : Bool) (i tag : String),
      i ∉ capList st tag → i ∉ capList ((widgetSuspendF fuel st c del).1) tag := by
  induction fuel with
  | zero => intro st c del i tag h; exact h
  | succ n ih =>
    intro st c del i tag h
    rw [widgetSuspendF_succ]
    apply capList_unregister_mono
    generalize getChildrenD st c = cs
    induction cs generalizing st with
    | nil => exact h
    | cons d ds ihl =>
      rw [suspendList_cons]
      simp only
      exact ihl (widgetSuspendF n st d false).1 (ih st d false i tag h)

/-- A capability-list absence is preserved by the suspension fold. -/
theorem suspendList_caps_mono (fuel : Nat) (cs : List String) :
    ∀ (st : PS) (i tag : String),
      i ∉ capList st tag → i ∉ capList ((suspendList fuel st cs).1) tag := by
  induction cs with
  | nil => intro st i tag h; exact h
  | cons d ds ih =>
    intro st i tag h
    rw [suspendList_cons]
    simp only
    exact ih (widgetSuspendF fuel st d false).1 i tag
      (suspendF_caps_mono fuel st d false i tag h)

/-- The suspension fold changes no children list. -/
theorem suspendList_children (fuel : Nat) (cs : List String) :
    ∀ (st : PS) (x : String),
      lookupTopic ((suspendList fuel st cs).1) (childrenTopic x) =
        lookupTopic st (childrenTopic x) := by
  induction cs with
  | nil => intro st x; rfl
  | cons d ds ih =>
    intro st x
    rw [suspendList_cons]
    simp only
    rw [ih (widgetSuspendF fuel st d false).1, suspendF_false_children fuel st d x]

/-- Children reads agree on states with equal children lists. -/
theorem getChildrenD_congr (st st' : PS)
    (h : ∀ x, lookupTopic st' (childrenTopic x) = lookupTopic st (childrenTopic x))
    (x : String) : getChildrenD st' x = getChildrenD st x := by
  unfold getChildrenD query
  rw [h x]

mutual
/-- Tree/state correspondence depends only on the children lists. -/
theorem matchesT_stable (st st' : PS)
    (h : ∀ x, lookupTopic st' (childrenTopic x) = lookupTopic st (childrenTopic x)) :
    ∀ t : WTree, matchesT st t = true → matchesT st' t = true
  | .node i f, hm => by
      simp only [matchesT, Bool.and_eq_true, decide_eq_true_eq] at hm ⊢
      exact ⟨by rw [getChildrenD_congr st st' h i]; exact hm.1,
             matchesF_stable st st' h f hm.2⟩
/-- Forest version of `matchesT_stable`. -/
theorem matchesF_stable (st st' : PS)
    (h : ∀ x, lookupTopic st' (childrenTopic x) = lookupTopic st (childrenTopic x)) :
    ∀ f : WForest, matchesF st f = true → matchesF st' f = true
  | .nil, _ => rfl
  | .cons t f, hm => by
      simp only [matchesF, Bool.and_eq_true] at hm ⊢
      exact ⟨matchesT_stable st st' h t hm.1, matchesF_stable st st' h f hm.2⟩
end

mutual
/-- On a matching tree with sufficient fuel, the suspension trace is the
post-order tree trace: children first, the root last. -/
theorem suspendT_trace : ∀ (t : WTree) (st : PS) (fuel : Nat) (del : Bool),
    matchesT st t = true → depthT t ≤ fuel →
    (widgetSuspendF fuel st (rootId t) del).2 = traceT t del
  | .node i f, st, fuel, del, hm, hd => by
      cases fuel with
      | zero => simp [depthT] at hd
      | succ n =>
        simp only [matchesT, Bool.and_eq_true, decide_eq_true_eq] at hm
        rw [rootId, widgetSuspendF_succ]
        simp only [traceT]
        rw [hm.1, suspendF_trace f st n hm.2 (by simp [depthT] at hd; omega)]
/-- Forest version of `suspendT_trace`, for the children fold. -/
theorem suspendF_trace : ∀ (f : WForest) (st : PS) (fuel : Nat),
    matchesF st f = true → depthF f ≤ fuel →
    (suspendList fuel st (rootsF f)).2 = traceF f
  | .nil, st, fuel, _, _ => rfl
  | .cons t f, st, fuel, hm, hd => by
      simp only [matchesF, Bool.and_eq_true] at hm
      simp only [depthF, max_le_iff] at hd
      rw [rootsF, suspendList_cons]
      simp only [traceF]
      rw [suspendT_trace t st fuel false hm.1 hd.1,
          suspendF_trace f (widgetSuspendF fuel st (rootId t) false).1 fuel
            (matchesF_stable st (widgetSuspendF fuel st (rootId t) false).1
              (fun x => suspendF_false_children fuel st (rootId t) x) f hm.2) hd.2]
end

mutual
/-- After suspending a matching tree, every id of the tree is absent
from every capability list. -/
theorem suspendT_caps : ∀ (t : WTree) (st : PS) (fuel : Nat) (del : Bool),
    matchesT st t = true → depthT t ≤ fuel →
    ∀ i ∈ idsT t, ∀ tag, i ∉ capList (widgetSuspendF fuel st (rootId t) del).1 tag
  | .node j f, st, fuel, del, hm, hd => by
      cases fuel with
      | zero => simp [depthT] at hd
      | succ n =>
        simp only [matchesT, Bool.and_eq_true, decide_eq_true_eq] at hm
        intro i hi tag
        rw [rootId, widgetSuspendF_succ]
        simp only
        rw [capList_unregister]
        simp only [idsT, List.mem_cons] at hi
        cases hi with
        | inl hroot =>
            subst hroot
            intro hmem
            have := List.of_mem_filter hmem
            simp at this
        | inr hsub =>
            intro hmem
            have hin := List.mem_of_mem_filter hmem
            rw [hm.1] at hin
            exact suspendF_caps f st n hm.2 (by simp [depthT] at hd; omega) i hsub tag hin
/-- Forest version of `suspendT_caps`. -/
theorem suspendF_caps : ∀ (f : WForest) (st : PS) (fuel : Nat),
    matchesF st f = true → depthF f ≤ fuel →
    ∀ i ∈ idsF f, ∀ tag, i ∉ capList (suspendList fuel st (rootsF f)).1 tag
  | .nil, st, fuel, _, _ => by intro i hi; simp [idsF] at hi
  | .cons t f, st, fuel, hm, hd => by
      simp only [matchesF, Bool.and_eq_true] at hm
      simp only [depthF, max_le_iff] at hd
      intro i hi tag
      simp only [idsF, List.mem_append] at hi
      rw [rootsF, suspendList_cons]
      simp only
      cases hi with
      | inl hit =>
          exact suspendList_caps_mono fuel (rootsF f)
            (widgetSuspendF fuel st (rootId t) false).1 i tag
            (suspendT_caps t st fuel false hm.1 hd.1 i hit tag)
      | inr hif =>
          exact suspendF_caps f (widgetSuspendF fuel st (rootId t) false).1 fuel
            (matchesF_stable st (widgetSuspendF fuel st (rootId t) false).1
              (fun x => suspendF_false_children fuel st (rootId t) x) f hm.2)
            hd.2 i hif tag
end

mutual
/-- The ids of the tree trace, in order, form the post-order listing. -/
theorem map_fst_traceT : ∀ (t : WTree) (del : Bool),
    (traceT t del).map Prod.fst = flatT t
  | .node i f, del => by
      simp only [traceT, flatT, List.map_append]
      rw [map_fst_traceF f]
      rfl
/-- Forest version of `map_fst_traceT`. -/
theorem map_fst_traceF : ∀ f : WForest, (traceF f).map Prod.fst = flatF f
  | .nil => rfl
  | .cons t f => by
      simp only [traceF, flatF, List.map_append]
      rw [map_fst_traceT t false, map_fst_traceF f]
end

mutual
/-- Tree membership carries over to the post-order listing. -/
theorem mem_flatT : ∀ (t : WTree) (i : String), i ∈ idsT t → i ∈ flatT t
  | .node j f, i, hi => by
      simp only [idsT, List.mem_cons] at hi
      simp only [flatT, List.mem_append, List.mem_singleton]
      cases hi with
      | inl h => exact Or.inr h
      | inr h => exact Or.inl (mem_flatF f i h)
/-- Forest version of `mem_flatT`. -/
theorem mem_flatF : ∀ (f : WForest) (i : String), i ∈ idsF f → i ∈ flatF f
  | .cons t f, i, hi => by
      simp only [idsF, List.mem_append] at hi
      simp only [flatF, List.mem_append]
      cases hi with
      | inl h => exact Or.inl (mem_flatT t i h)
      | inr h => exact Or.inr (mem_flatF f i h)
end

mutual
/-- The post-order listing of a subtree embeds into the whole tree's. -/
theorem flat_subT : ∀ (t n : WTree), n ∈ subtreesT t → List.Sublist (flatT n) (flatT t)
  | .node i f, n, hn => by
      simp only [subtreesT, List.mem_cons] at hn
      cases hn with
      | inl h => subst h; exact List.Sublist.refl _
      | inr h =>
          exact (flat_subF f n h).trans
            (by simpa [flatT] using List.sublist_append_left (flatF f) [i])
/-- Forest version of `flat_subT`. -/
theorem flat_subF : ∀ (f : WForest) (n : WTree), n ∈ subtreesF f → List.Sublist (flatT n) (flatF f)
  | .cons t f, n, hn => by
      simp only [subtreesF, List.mem_append] at hn
      cases hn with
      | inl h =>
          exact (flat_subT t n h).trans
            (by simpa [flatF] using List.sublist_append_left (flatT t) (flatF f))
      | inr h =>
          exact (flat_subF f n h).trans
            (by simpa [flatF] using List.sublist_append_right (flatT t) (flatF f))
end

/-- In the post-order listing of a tree, every id of the children forest
appears before the root id. -/
theorem flat_local_order (n : WTree) (d : String) (hd : d ∈ idsF (childrenOf n)) :
    List.Sublist [d, rootId n] (flatT n) := by
  cases n with
  | node i f =>
      simp only [childrenOf] at hd
      have h1 : List.Sublist [d] (flatF f) := List.singleton_sublist.mpr (mem_flatF f d hd)
      have h2 : List.Sublist ([d] ++ [i]) (flatF f ++ [i]) := h1.append (List.Sublist.refl [i])
      simpa [flatT, rootId] using h2

/-- Deleting unregistration leaves no entry under `registry/<id>/*`. -/
theorem unregister_true_clears (st : PS) (u : String) :
    ∀ p ∈ (unregister st u true).values, ¬ (regTopic u <+: p.1) := by
  intro p hp
  unfold unregister at hp
  simp only [if_true] at hp
  have := List.of_mem_filter hp
  simpa using this

/-! ## Claims C1 and C4: widget teardown -/

/-- Claim C4: during widget teardown via `View._widget_suspend`,
unregistration is post-order — on a tree matching the registry's
children lists, every id below a node (so in particular each child) has
its unregister event strictly before the node's own unregister event in
the teardown trace. -/
theorem c4_teardown_postorder (st : PS) (t : WTree) (fuel : Nat) (del : Bool)
    (hm : matchesT st t = true) (hd : depthT t ≤ fuel) :
    ∀ n ∈ subtreesT t, ∀ d ∈ idsF (childrenOf n),
      List.Sublist [d, rootId n]
        ((widgetSuspendF fuel st (rootId t) del).2.map Prod.fst) := by
  intro n hn d hd'
  rw [suspendT_trace t st fuel del hm hd, map_fst_traceT]
  exact (flat_local_order n d hd').trans (flat_subT t n hn)

/-- Registry with a widget `a` owning a child `b` that carries a
settings entry; both ids are in the `widget.object` capability list. -/
def c4st : PS :=
  ⟨[(childrenTopic "a", V.list ["b"]), (childrenTopic "b", V.list []),
    (instanceTopic "a", V.str "a"), (instanceTopic "b", V.str "b"),
    (["registry", "b", "settings", "name"], V.str "x"),
    (capTopic "widget.object", V.list ["a", "b"])], [], Option.none, "", ""⟩

/-- The widget tree of `c4st`: `a` with single child `b`. -/
def c4tree : WTree := .node "a" (.cons (.node "b" .nil) .nil)

/-- Claim C4 witness: the post-order property at the concrete two-level
registry. -/
theorem c4_teardown_postorder_witness :
    matchesT c4st c4tree = true ∧ depthT c4tree ≤ 2 ∧
    ∀ n ∈ subtreesT c4tree, ∀ d ∈ idsF (childrenOf n),
      List.Sublist [d, rootId n]
        ((widgetSuspendF 2 c4st (rootId c4tree) true).2.map Prod.fst) :=
  ⟨by decide, by decide,
   c4_teardown_postorder c4st c4tree 2 true (by decide) (by decide)⟩

/-- Registry identical to `c4st`: widget `a` owns child `b`, which keeps
a settings entry; used to exercise `on_action_widget_close`. -/
def c1st : PS :=
  ⟨[(childrenTopic "a", V.list ["b"]), (childrenTopic "b", V.list []),
    (instanceTopic "a", V.str "a"), (instanceTopic "b", V.str "b"),
    (["registry", "b", "settings", "name"], V.str "x"),
    (capTopic "widget.object", V.list ["a", "b"])], [], Option.none, "", ""⟩

/-- The widget tree of `c1st`. -/
def c1tree : WTree := .node "a" (.cons (.node "b" .nil) .nil)

/-- Claim C1 counterexample: closing widget `a` (child `b` has a settings
entry) leaves an entry under `registry/b/*` — the claim that no entries
remain under `registry/<id>/*` for the widget *or any of its
descendants* is false, because `View._widget_suspend` recurses into
children without the `delete` flag (view.py line 279), so the children
are suspended, not deleted. -/
theorem c1_counterexample :
    ¬ (∀ p ∈ (onActionWidgetClose c1st "a").1.values,
        ¬ ((regTopic "a" <+: p.1) ∨ (regTopic "b" <+: p.1))) := by decide

/-- Claim C1 (amended): after `on_action_widget_close` on a widget whose
subtree matches the registry, no entries remain under `registry/<id>/*`
for the closed widget itself, and the widget and every descendant are
removed from every capability list; descendants are suspended, so their
settings entries may remain. -/
theorem c1_widget_close_cleanup (st : PS) (t : WTree)
    (hm : matchesT st t = true) (hd : depthT t ≤ st.values.length + 1) :
    (∀ p ∈ (onActionWidgetClose st (rootId t)).1.values,
        ¬ (regTopic (rootId t) <+: p.1)) ∧
    (∀ i ∈ idsT t, ∀ tag, i ∉ capList (onActionWidgetClose st (rootId t)).1 tag) := by
  constructor
  · intro p hp
    unfold onActionWidgetClose at hp
    simp only at hp
    rw [widgetSuspendF_succ] at hp
    exact unregister_true_clears _ (rootId t) p hp
  · intro i hi tag
    unfold onActionWidgetClose
    simp only
    exact suspendT_caps t st (st.values.length + 1) true hm hd i hi tag

/-- Claim C1 witness: the amended cleanup property at the concrete
two-level registry. -/
theorem c1_widget_close_cleanup_witness :
    matchesT c1st c1tree = true ∧ depthT c1tree ≤ c1st.values.length + 1 ∧
    ((∀ p ∈ (onActionWidgetClose c1st (rootId c1tree)).1.values,
        ¬ (regTopic (rootId c1tree) <+: p.1)) ∧
     (∀ i ∈ idsT c1tree, ∀ tag,
        i ∉ capList (onActionWidgetClose c1st (rootId c1tree)).1 tag)) :=
  ⟨by decide, by decide, c1_widget_close_cleanup c1st c1tree (by decide) (by decide)⟩

/-! ## Claim C5: application shutdown -/

/-- The pending finalize messages for a list of factory ids. -/
def finalizeMsgs (l : List String) : List (Topic × V) :=
  l.map (fun f => (["registry", f, "actions", "!finalize"], V.none))

/-- The finalize fan-out only appends to the queue. -/
theorem foldl_publish_finalize (l : List String) :
    ∀ st : PS,
      l.foldl (fun a f => publish a ["registry", f, "actions", "!finalize"] V.none) st =
      { st with queue := st.queue ++ finalizeMsgs l } := by
  induction l with
  | nil => intro st; simp [finalizeMsgs]
  | cons f fs ih =>
    intro st
    simp only [List.foldl, finalizeMsgs, List.map]
    rw [ih]
    simp [publish, finalizeMsgs]

/-- Claim C5 counterexample: with one registered device factory and an
empty queue, `MainWindow.closeEvent` returns with the finalize actions
still pending in the queue and the topic tree untouched — no `process()`
call occurs inside `closeEvent`, so nothing guarantees the finalize
handlers run before teardown. -/
theorem c5_counterexample :
    (closeEvent ⟨[(capTopic deviceFactoryCap, V.list ["jsdrv"])], [],
        Option.none, "", ""⟩).queue =
      [(["registry", "jsdrv", "actions", "!finalize"], V.none),
       (["registry", "JlsSource", "actions", "!finalize"], V.none)] ∧
    (closeEvent ⟨[(capTopic deviceFactoryCap, V.list ["jsdrv"])], [],
        Option.none, "", ""⟩).values =
      [(capTopic deviceFactoryCap, V.list ["jsdrv"])] := by decide

/-- Claim C5 (amended): `closeEvent` publishes the device-factory
finalize actions (in capability-list order) followed by the JlsSource
finalize action, appending them to the pending queue; it performs no
dispatch itself — the topic tree is left untouched, and the messages are
only handled by a later `process()` of the event loop. -/
theorem c5_close_event_publishes (st : PS) :
    (closeEvent st).values = st.values ∧
    (closeEvent st).activeView = st.activeView ∧
    (closeEvent st).queue = st.queue ++ finalizeMsgs (capList st deviceFactoryCap) ++
      [(["registry", "JlsSource", "actions", "!finalize"], V.none)] := by
  unfold closeEvent deviceFactoryFinalize
  rw [foldl_publish_finalize]
  simp [publish]

/-! ## Claim C8: unique-id allocation -/

/-- Claim C8: factory registration allocates `<ClassName>:<N>` for the
smallest `N` not in use for that class — the allocated number is free,
every smaller number is in use, and (reuse scenario) after unregistering
`Widget:0` while `Widget:1` remains, the next registration of the class
yields `Widget:0` again. -/
theorem c8_alloc_minimal :
    (∀ (st : AllocState) (cls : String),
       (registerFactory st cls).2 = uidStr cls (allocNum st cls) ∧
       usedNum st cls (allocNum st cls) = false ∧
       ∀ m < allocNum st cls, usedNum st cls m = true) ∧
    (registerFactory (unregisterNum ⟨[("Widget", 0), ("Widget", 1)]⟩ "Widget" 0)
        "Widget").2 = "Widget:0" := by
  constructor
  · intro st cls
    refine ⟨rfl, Nat.find_spec (exists_unused st cls), ?_⟩
    intro m hm
    have := Nat.find_min (exists_unused st cls) hm
    revert this
    cases usedNum st cls m <;> simp
  · have h0 : allocNum (unregisterNum ⟨[("Widget", 0), ("Widget", 1)]⟩ "Widget" 0)
        "Widget" = 0 := by
      rw [allocNum, Nat.find_eq_zero]
      decide
    unfold registerFactory
    rw [h0]
    rfl

/-! ## Claim C7: retained subscriptions -/

/-- Claim C7: subscribing with the `retain` flag to a topic that was
published (and processed) before subscription time delivers exactly the
last published value to the handler once, synchronously inside
`subscribe` itself; if the topic has never been published, `subscribe`
delivers nothing and the handler is first invoked by the next publish of
the topic. -/
theorem c7_retained_subscription (st : SubState) (topic : String) (h : Nat)
    (flags : List SubFlag) (hretain : SubFlag.retain ∈ flags) :
    (∀ v, lastOf st topic = some v → (subscribe st topic h flags).2 = [(h, v)]) ∧
    (lastOf st topic = Option.none →
       (subscribe st topic h flags).2 = [] ∧
       ∀ v, (h, v) ∈ (publishDeliver (subscribe st topic h flags).1 topic v).2) := by
  constructor
  · intro v hv
    unfold subscribe
    simp [hretain, hv]
  · intro hnone
    constructor
    · unfold subscribe
      simp [hretain, hnone]
    · intro v
      unfold publishDeliver subscribe
      simp [hretain, hnone]

/-- Claim C7 witness: retained delivery at a concrete state where topic
`t` was last published with value `v`. -/
theorem c7_retained_subscription_witness :
    (subscribe ⟨[("t", V.str "v")], []⟩ "t" 7 [SubFlag.pub, SubFlag.retain]).2 =
      [(7, V.str "v")] :=
  (c7_retained_subscription ⟨[("t", V.str "v")], []⟩ "t" 7
      [SubFlag.pub, SubFlag.retain] (by decide)).1 (V.str "v") (by decide)

/-! ## Claim C10: accumulator hold -/

/-- Claim C10: when the most recently delivered value of
`registry/app/settings/statistics_stream_enable` was falsy, a subsequent
statistics event leaves the accumulator widget unchanged — the stored
statistics and the label text keep their previous values, because
`_on_statistics` returns before touching them. -/
theorem c10_statistics_hold (α : Type) (fmt : α → String) (w : AccumWidget α)
    (enable : V) (hfalsy : truthy enable = false) (value : α) :
    onStatistics fmt (onGlobalStatisticsStreamEnable w enable) value =
      onGlobalStatisticsStreamEnable w enable := by
  unfold onStatistics onGlobalStatisticsStreamEnable
  simp [hfalsy]

/-- Claim C10 witness: a falsy enable value at a concrete widget state
followed by a statistics event changes nothing. -/
theorem c10_statistics_hold_witness :
    onStatistics (fun _ : Nat => "")
        (onGlobalStatisticsStreamEnable ⟨false, Option.none, ""⟩ (V.bool false)) 0 =
      onGlobalStatisticsStreamEnable ⟨false, Option.none, ""⟩ (V.bool false) :=
  c10_statistics_hold Nat (fun _ => "") ⟨false, Option.none, ""⟩ (V.bool false)
    (by decide) 0

/-! ## Claim C2: inverse-action descriptors -/

/-- Baseline registry for the C2 scenario: one registered, active view
`view:a`, so that `!add` does not also publish an activation. -/
def c2st : PS :=
  ⟨[(instanceTopic "view:a", V.str "view:a"), (childrenTopic "view:a", V.list []),
    (capTopic viewCap, V.list ["view:a"])], [], some "view:a", "", ""⟩

/-- Claim C2 counterexample: after processing `!add` of `view:test`,
processing the returned `!remove` descriptor does not restore the
pre-action registry state — `on_cls_action_remove` unregisters with the
bus default `delete=False`, so the settings subtree created by the add
survives (`registry/view:test/settings/active` is still present). -/
theorem c2_counterexample :
    ((processFuel 2 (publish c2st ["registry", "view", "actions", "!add"]
        (V.str "view:test"))).bind
      (fun s => processFuel 2 (publish s ["registry", "view", "actions", "!remove"]
        (V.str "view:test")))).map
      (fun s => (s.values == c2st.values,
                 hasTopic s ["registry", "view:test", "settings", "active"])) =
      some (false, true) := by decide

/-- A suspend-flavored unregister removes the id's live-instance
binding. -/
theorem unregister_false_no_instance (st : PS) (u : String) :
    hasTopic (unregister st u false) (instanceTopic u) = false := by
  unfold hasTopic lookupTopic unregister removeFromCaps
  simp only [Bool.false_eq_true, if_false]
  cases hf : ((st.values.map (capEntryRemove u)).filter
      (fun p => p.1 ≠ instanceTopic u)).find? (fun p => p.1 = instanceTopic u) with
  | none => simp [hf]
  | some p =>
      have hp := List.find?_some hf
      have hq := List.of_mem_filter (List.mem_of_find?_eq_some hf)
      simp at hp hq
      exact absurd hp hq

/-- The unregistered id itself never survives in a capability list. -/
theorem notMem_capList_unregister (st : PS) (u : String) (del : Bool) (tag : String) :
    u ∉ capList (unregister st u del) tag := by
  rw [capList_unregister]
  intro hmem
  have := List.of_mem_filter hmem
  simp at this

/-- Claim C2 (amended): each view action handler returns the inverse
descriptor for the same id — `!add` returns `!remove`, `!remove` returns
`!add`, `widget_open` (when the spec resolves) returns `widget_close`,
and `widget_close` returns `widget_open`.  Processing the `!remove`
returned by `!add` removes the view's live-instance binding and removes
the id from every capability list, but — unregistering with the bus
default `delete=False` — leaves the settings subtree created by the add,
so the exact pre-action registry state is not restored; processing the
`widget_close` returned by `widget_open` removes every
`registry/<id>/*` entry and the id from every capability list. -/
theorem c2_inverse_descriptors :
    (∀ (st : PS) (u : String), (onClsActionAdd st u).2 =
        some (["registry", "view", "actions", "!remove"], V.str u)) ∧
    (∀ (st : PS) (u : String), (onClsActionRemove st u).2 =
        some (["registry", "view", "actions", "!add"], V.str u)) ∧
    (∀ (st : PS) (vid w : String),
        (hasTopic st (instanceTopic w) ∨ hasTopic st ["registry", w, "instance_of"]) →
        (onActionWidgetOpen st vid w).2 =
          some (["registry", "view", "actions", "!widget_close"], V.str w)) ∧
    (∀ (st : PS) (w : String), (onActionWidgetClose st w).2 =
        some (["registry", "view", "actions", "!widget_open"], V.str w)) ∧
    (∀ (st : PS) (u : String),
        hasTopic (onClsActionRemove (onClsActionAdd st u).1 u).1 (instanceTopic u)
          = false ∧
        ∀ tag, u ∉ capList (onClsActionRemove (onClsActionAdd st u).1 u).1 tag) ∧
    (∀ (st : PS) (vid w : String),
        (∀ p ∈ (onActionWidgetClose (onActionWidgetOpen st vid w).1 w).1.values,
            ¬ (regTopic w <+: p.1)) ∧
        ∀ tag, w ∉ capList (onActionWidgetClose (onActionWidgetOpen st vid w).1 w).1 tag) := by
  refine ⟨fun st u => rfl, fun st u => rfl, ?_, fun st w => rfl, ?_, ?_⟩
  · intro st vid w hw
    unfold onActionWidgetOpen
    rw [if_pos hw]
  · intro st u
    exact ⟨unregister_false_no_instance (onClsActionAdd st u).1 u,
           fun tag => notMem_capList_unregister (onClsActionAdd st u).1 u false tag⟩
  · intro st vid w
    constructor
    · intro p hp
      unfold onActionWidgetClose at hp
      simp only at hp
      rw [widgetSuspendF_succ] at hp
      exact unregister_true_clears _ w p hp
    · intro tag
      unfold onActionWidgetClose
      simp only
      rw [widgetSuspendF_succ]
      exact notMem_capList_unregister _ w true tag

/-- Claim C2 witness: the widget-open descriptor at a concrete state
with a suspended widget (its `instance_of` entry present). -/
theorem c2_inverse_descriptors_witness :
    (onActionWidgetOpen ⟨[(["registry", "w:0", "instance_of"], V.str "W")], [],
        Option.none, "", ""⟩ "view:a" "w:0").2 =
      some (["registry", "view", "actions", "!widget_close"], V.str "w:0") :=
  c2_inverse_descriptors.2.2.1 ⟨[(["registry", "w:0", "instance_of"], V.str "W")], [],
    Option.none, "", ""⟩ "view:a" "w:0" (Or.inr (by decide))

/-! ## Claim C3: the `!add` scenario -/

/-- Baseline registry for the C3 scenario: only the `View` class is
registered (`register(View, 'view')`, view.py line 341) and no view is
active. -/
def c3st : PS :=
  ⟨[(instanceTopic "view", V.str "view"), (childrenTopic "view", V.list []),
    (["registry", "view", "settings", "active"], V.str "")], [],
   Option.none, "", ""⟩

/-- Claim C3: publishing `registry/view/actions/!add` with value
`view:test` and processing the queue puts `view:test` into the
`view.object` capability list, and — since no view was active — the
activation publish issued by the handler is drained in the same
`process()`, so `registry/view:test/settings/active` afterwards holds
the new id and the view is active. -/
theorem c3_add_view_scenario :
    (processFuel 4 (publish c3st ["registry", "view", "actions", "!add"]
        (V.str "view:test"))).map
      (fun stf => (("view:test" ∈ capList stf viewCap : Bool),
                   query stf ["registry", "view:test", "settings", "active"] V.none,
                   stf.activeView)) =
      some (true, V.str "view:test", some "view:test") := by decide

/-! ## Lemmas for the active-view handler (claims C6 and C9) -/

/-- A state has a topic iff the lookup is not `none`. -/
theorem hasTopic_false_iff (st : PS) (T : Topic) :
    hasTopic st T = false ↔ lookupTopic st T = Option.none := by
  unfold hasTopic
  cases lookupTopic st T <;> simp

/-- Publishing only queues; it changes no lookup. -/
theorem lookup_publish (st : PS) (t : Topic) (v : V) (T : Topic) :
    lookupTopic (publish st t v) T = lookupTopic st T := rfl

/-- Lookup misses exactly when no stored entry has the topic. -/
theorem lookupTopic_eq_none_iff (st : PS) (T : Topic) :
    lookupTopic st T = Option.none ↔ ∀ x ∈ st.values, ¬ (x.1 = T) := by
  unfold lookupTopic
  constructor
  · intro h x hx hxT
    cases hf : st.values.find? (fun p => p.1 = T) with
    | none =>
        rw [List.find?_eq_none] at hf
        exact hf x hx (by simp [hxT])
    | some p => rw [hf] at h; simp at h
  · intro h
    cases hf : st.values.find? (fun p => p.1 = T) with
    | none => rfl
    | some p =>
        have hmem := List.mem_of_find?_eq_some hf
        have hp := List.find?_some hf
        simp at hp
        exact absurd hp (h p hmem)

/-- Every entry of an unregistered state shares its topic with an entry
of the original state. -/
theorem mem_unregister_values (st : PS) (u : String) (del : Bool) (x : Topic × V)
    (hx : x ∈ (unregister st u del).values) : ∃ y ∈ st.values, x.1 = y.1 := by
  unfold unregister removeFromCaps removeFromChildren at hx
  cases del with
  | true =>
    simp only [if_true] at hx
    have hx1 := List.mem_of_mem_filter hx
    obtain ⟨y2, hy2, hxy2⟩ := List.mem_map.mp hx1
    obtain ⟨y, hy, hy2y⟩ := List.mem_map.mp hy2
    refine ⟨y, hy, ?_⟩
    rw [← hxy2, fst_childEntryRemove, ← hy2y, fst_capEntryRemove]
  | false =>
    simp only [Bool.false_eq_true, if_false] at hx
    have hx1 := List.mem_of_mem_filter hx
    obtain ⟨y, hy, hyx⟩ := List.mem_map.mp hx1
    refine ⟨y, hy, ?_⟩
    rw [← hyx, fst_capEntryRemove]

/-- A missing topic stays missing across any unregister. -/
theorem hasTopic_unregister_mono (st : PS) (u : String) (del : Bool) (T : Topic)
    (h : hasTopic st T = false) : hasTopic (unregister st u del) T = false := by
  rw [hasTopic_false_iff, lookupTopic_eq_none_iff] at h ⊢
  intro x hx
  obtain ⟨y, hy, hxy⟩ := mem_unregister_values st u del x hx
  rw [hxy]
  exact h y hy

/-- A missing topic stays missing across a widget suspension. -/
theorem hasTopic_suspendF_mono (fuel : Nat) :
    ∀ (st : PS) (c : String) (del : Bool) (T : Topic),
      hasTopic st T = false → hasTopic ((widgetSuspendF fuel st c del).1) T = false := by
  induction fuel with
  | zero => intro st c del T h; exact h
  | succ n ih =>
    intro st c del T h
    rw [widgetSuspendF_succ]
    apply hasTopic_unregister_mono
    generalize getChildrenD st c = cs
    induction cs generalizing st with
    | nil => exact h
    | cons d ds ihl =>
      rw [suspendList_cons]
      simp only
      exact ihl (widgetSuspendF n st d false).1 (ih st d false T h)

/-- Unregister does not touch `View._active_instance`. -/
theorem activeView_unregister (st : PS) (u : String) (del : Bool) :
    (unregister st u del).activeView = st.activeView := by
  unfold unregister removeFromCaps removeFromChildren
  cases del <;> rfl

/-- Widget suspension does not touch `View._active_instance`. -/
theorem activeView_suspendF (fuel : Nat) :
    ∀ (st : PS) (c : String) (del : Bool),
      ((widgetSuspendF fuel st c del).1).activeView = st.activeView := by
  induction fuel with
  | zero => intro st c del; rfl
  | succ n ih =>
    intro st c del
    rw [widgetSuspendF_succ]
    simp only
    rw [activeView_unregister]
    generalize getChildrenD st c = cs
    induction cs generalizing st with
    | nil => rfl
    | cons d ds ihl =>
      rw [suspendList_cons]
      simp only
      rw [ihl (widgetSuspendF n st d false).1, ih]

/-- The teardown suspension fold preserves `View._active_instance`. -/
theorem teardown_fold_active (l : List String) :
    ∀ st : PS,
      (l.foldl (fun s c => (widgetSuspendF (s.values.length + 1) s c false).1) st).activeView =
        st.activeView := by
  induction l with
  | nil => intro st; rfl
  | cons c cs ih =>
    intro st
    simp only [List.foldl]
    rw [ih, activeView_suspendF]

/-- The teardown suspension fold cannot create topics. -/
theorem teardown_fold_absent (l : List String) :
    ∀ (st : PS) (T : Topic), hasTopic st T = false →
      hasTopic (l.foldl (fun s c => (widgetSuspendF (s.values.length + 1) s c false).1) st) T
        = false := by
  induction l with
  | nil => intro st T h; exact h
  | cons c cs ih =>
    intro st T h
    simp only [List.foldl]
    exact ih _ T (hasTopic_suspendF_mono _ st c false T h)

/-- When the active view's children topic holds a list (as registration
guarantees), the teardown block completes: it returns a state with the
same active instance and no newly created topics. -/
theorem viewTeardown_some (st : PS)
    (hch : ∀ vid, st.activeView = some vid →
      ∃ l, lookupTopic st (childrenTopic vid) = some (V.list l)) :
    ∃ st', viewTeardown st = some st' ∧ st'.activeView = st.activeView ∧
      ∀ T, hasTopic st T = false → hasTopic st' T = false := by
  unfold viewTeardown
  cases hact : st.activeView with
  | none => exact ⟨st, rfl, hact, fun T h => h⟩
  | some vid =>
    obtain ⟨l, hl⟩ := hch vid hact
    by_cases hui : hasTopic st (instanceTopic "ui") = true
    · simp only [hui, if_true, lookup_publish, hl]
      refine ⟨_, rfl, ?_, ?_⟩
      · rw [teardown_fold_active]
        exact hact
      · intro T h
        exact teardown_fold_absent l _ T h
    · simp only [Bool.not_eq_true] at hui
      simp only [hui, Bool.false_eq_true, if_false, lookup_publish, hl]
      refine ⟨_, rfl, ?_, ?_⟩
      · rw [teardown_fold_active]
        exact hact
      · intro T h
        exact teardown_fold_absent l _ T h

/-! ## Claim C9: clearing and invalid active-view values -/

/-- Claim C9: for the active-view setting handler, a value of `''` or
`None` tears down the currently active view (if any) and leaves
`View._active_instance` equal to `None`; a value naming a view with no
live instance makes the handler log a warning and return — in all these
cases the handler completes without raising and no view ends up
active. -/
theorem c9_active_clear (st : PS) (value : V)
    (hch : ∀ vid, st.activeView = some vid →
      ∃ l, lookupTopic st (childrenTopic vid) = some (V.list l))
    (hval : value = V.none ∨ value = V.str "" ∨
            ∃ s, value = V.str s ∧ hasTopic st (instanceTopic s) = false) :
    ∃ st', onClsSettingActive st value = some st' ∧ st'.activeView = Option.none := by
  obtain ⟨st1, htd, _, habs⟩ := viewTeardown_some st hch
  unfold onClsSettingActive
  rw [htd]
  rcases hval with h | h | ⟨s, hv, hs⟩
  · subst h
    exact ⟨{ st1 with activeView := Option.none }, rfl, rfl⟩
  · subst h
    exact ⟨{ st1 with activeView := Option.none }, by simp, rfl⟩
  · subst hv
    by_cases hse : s = ""
    · subst hse
      exact ⟨{ st1 with activeView := Option.none }, by simp, rfl⟩
    · have habs' : hasTopic { st1 with activeView := Option.none } (instanceTopic s) = false :=
        habs (instanceTopic s) hs
      refine ⟨{ st1 with activeView := Option.none }, ?_, rfl⟩
      simp only
      rw [if_neg hse, if_neg (by simp [habs'])]

/-- Registry with an active childless view `view:a`; `ghost` has no live
instance. -/
def c9st : PS :=
  ⟨[(instanceTopic "view:a", V.str "view:a"), (childrenTopic "view:a", V.list [])],
   [], some "view:a", "", ""⟩

/-- Claim C9 witness: setting the active view to a non-existent id at
the concrete registry completes and leaves no active view. -/
theorem c9_active_clear_witness :
    ∃ st', onClsSettingActive c9st (V.str "ghost") = some st' ∧
      st'.activeView = Option.none :=
  c9_active_clear c9st (V.str "ghost")
    (fun vid hv => by
      have : vid = "view:a" := by
        have h := hv
        simp [c9st] at h
        exact h.symm
      subst this
      exact ⟨[], by decide⟩)
    (Or.inr (Or.inr ⟨"ghost", rfl, by decide⟩))

/-! ## Claim C6: query totality and the teardown children read -/

/-- A stored value is found at its own topic. -/
theorem lookup_setValue_self (st : PS) (t : Topic) (v : V) :
    lookupTopic (setValue st t v) t = some v := by
  unfold lookupTopic setValue
  simp [List.find?]

/-- Storing at one topic leaves other lookups unchanged. -/
theorem lookup_setValue_ne (st : PS) (t t' : Topic) (v : V) (h : t' ≠ t) :
    lookupTopic (setValue st t v) t' = lookupTopic st t' := by
  unfold lookupTopic setValue
  simp only
  rw [List.find?_cons_of_neg _ (by simp; exact fun hh => h hh.symm)]
  rw [find?_filter_eq st.values _ t' (fun p hp => by simp [hp, h])]

/-- The settings-merge fold of `register` does not touch the children
topic. -/
theorem lookup_settings_fold (uid : String) (settings : List (String × V)) :
    ∀ s : PS,
      lookupTopic (settings.foldl (fun s nv =>
        if hasTopic s ["registry", uid, "settings", nv.1] then s
        else setValue s ["registry", uid, "settings", nv.1] nv.2) s) (childrenTopic uid) =
      lookupTopic s (childrenTopic uid) := by
  induction settings with
  | nil => intro s; rfl
  | cons nv rest ih =>
    intro s
    simp only [List.foldl]
    rw [ih]
    by_cases hc : hasTopic s ["registry", uid, "settings", nv.1] = true
    · simp [hc]
    · simp only [Bool.not_eq_true] at hc
      simp only [hc, Bool.false_eq_true, if_false]
      exact lookup_setValue_ne s _ _ _ (by simp [childrenTopic])

/-- The capability fold of `register` does not touch the children
topic. -/
theorem lookup_caps_fold (uid : String) (caps : List String) :
    ∀ s : PS,
      lookupTopic (caps.foldl (fun s c => addCap s c uid) s) (childrenTopic uid) =
      lookupTopic s (childrenTopic uid) := by
  induction caps with
  | nil => intro s; rfl
  | cons c cs ih =>
    intro s
    simp only [List.foldl]
    rw [ih]
    unfold addCap
    exact lookup_setValue_ne _ _ _ _ (by simp [childrenTopic, capTopic])

/-- Claim C6: `query(topic, default)` is total — it returns the stored
value when the topic exists and the default when it does not, never
failing; registering a view (as `on_cls_action_add` does) creates its
`registry/<id>/children` topic as an (empty) list; and therefore the
view-teardown path, which iterates the active view's children read with
`default=None`, completes for any registered view. -/
theorem c6_query_total (st : PS) (value : V) (vid : String)
    (hact : st.activeView = some vid)
    (hch : ∃ l, lookupTopic st (childrenTopic vid) = some (V.list l)) :
    (∀ (t : Topic) (d v : V), lookupTopic st t = some v → query st t d = v) ∧
    (∀ (t : Topic) (d : V), lookupTopic st t = Option.none → query st t d = d) ∧
    (∀ uid : String, hasTopic st (childrenTopic uid) = false →
       lookupTopic (register st uid [viewCap] viewSettings Option.none)
         (childrenTopic uid) = some (V.list [])) ∧
    (onClsSettingActive st value).isSome := by
  refine ⟨?_, ?_, ?_, ?_⟩
  · intro t d v hv
    unfold query
    rw [hv]
    rfl
  · intro t d hv
    unfold query
    rw [hv]
    rfl
  · intro uid h0
    unfold register
    simp only
    rw [lookup_caps_fold, lookup_settings_fold]
    have h1 : hasTopic (setValue st (instanceTopic uid) (V.str uid))
        (childrenTopic uid) = false := by
      rw [hasTopic_false_iff] at h0 ⊢
      rw [lookup_setValue_ne _ _ _ _ (by simp [childrenTopic, instanceTopic])]
      exact h0
    rw [if_neg (by simp [h1])]
    exact lookup_setValue_self _ _ _
  · obtain ⟨st1, htd, _, _⟩ := viewTeardown_some st
      (fun v hv => by rw [hact] at hv; cases hv; exact hch)
    unfold onClsSettingActive
    rw [htd]
    cases value with
    | none => rfl
    | str s =>
        simp only
        split
        · rfl
        · split <;> rfl
    | list l => rfl
    | bool b => rfl

/-- Registry with an active childless view `view:a`. -/
def c6st : PS :=
  ⟨[(instanceTopic "view:a", V.str "view:a"), (childrenTopic "view:a", V.list [])],
   [], some "view:a", "", ""⟩

/-- Claim C6 witness: the totality conjunction applied at the concrete
registry with the handler invoked on the clearing value. -/
theorem c6_query_total_witness :
    (∀ (t : Topic) (d v : V), lookupTopic c6st t = some v → query c6st t d = v) ∧
    (∀ (t : Topic) (d : V), lookupTopic c6st t = Option.none → query c6st t d = d) ∧
    (∀ uid : String, hasTopic c6st (childrenTopic uid) = false →
       lookupTopic (register c6st uid [viewCap] viewSettings Option.none)
         (childrenTopic uid) = some (V.list [])) ∧
    (onClsSettingActive c6st (V.str "")).isSome :=
  c6_query_total c6st (V.str "") "view:a" (by decide) ⟨[], by decide⟩
